import Mathlib

/-!
# LocalTable: a verification development

Shallow embedding of the `localtable` library (src/table.js, src/validation.js):
a database-table-like API over a `Storage`-like key-value store.

JS values are modelled by an inductive `Value` (numbers as rationals, so
integrality of `Math.round` is meaningful); JS objects by insertion-ordered
association lists (`Obj`), matching the enumeration order of `Object.keys` and
the in-place update semantics of property assignment. The storage maps string
keys to parsed stored values (`StoreVal`); the JSON encode/decode pair is
assumed faithful (the store is an external collaborator assumed reliable), so
`JSON.stringify`/`JSON.parse` of a well-formed value is the identity embedding.
Thrown JS errors are modelled with `Except JsError`.
-/

/-- A JS value, as far as the library manipulates them: strings, numbers
(modelled as rationals), booleans and null. -/
inductive Value where
  | vStr : String → Value
  | vNum : ℚ → Value
  | vBool : Bool → Value
  | vNull : Value
  deriving DecidableEq, Repr

/-- A JS object: an insertion-ordered association list from property names to
values (the order of `Object.keys`). -/
abbrev Obj := List (String × Value)

/-! String-keyed association primitives, shared by the model of JS objects
and by the model of the `Storage` collaborator (both are string-keyed maps
with insertion-ordered enumeration and update-in-place assignment). -/

/-- Look a key up. -/
def assocFind (l : List (String × α)) (k : String) : Option α :=
  (l.find? (fun p => p.1 == k)).map (fun p => p.2)

/-- Assign a key: an existing key keeps its position in the enumeration
order; a new key is appended at the end, as in JS. -/
def assocPut (l : List (String × α)) (k : String) (v : α) : List (String × α) :=
  if (assocFind l k).isSome then l.map (fun p => if p.1 == k then (k, v) else p)
  else l ++ [(k, v)]

/-- Remove a key. -/
def assocDrop (l : List (String × α)) (k : String) : List (String × α) :=
  l.filter (fun p => p.1 != k)

/-- `obj.hasOwnProperty(k)` for own enumerable properties. -/
def hasProp (m : Obj) (k : String) : Bool :=
  (assocFind m k).isSome

/-- `obj[k]`: property read (none when absent, i.e. undefined). -/
def getProp (m : Obj) (k : String) : Option Value :=
  assocFind m k

/-- `obj[k] = v`: property assignment. -/
def setProp (m : Obj) (k : String) (v : Value) : Obj :=
  assocPut m k v

/-! ## src/validation.js -/

/-- `isString` (src/validation.js): typeof value === "string". -/
def isString : Value → Bool
  | .vStr _ => true
  | _ => false

/-- JS `Math.round`: round half toward positive infinity. -/
def jsRound (q : ℚ) : ℚ := (((q + 1/2).floor : ℤ) : ℚ)

/-- `isInteger` (src/validation.js). The source's first guard
`if(! typeof value === "number")` is dead code (`!` binds before `===`, so the
condition is the constant `false`); the function's result is decided entirely
by `Math.round(value) !== value` under strict inequality. `Math.round` always
returns a number, so for any non-number value the strict comparison differs
and the function returns false; for a number it returns true exactly when the
value is unchanged by rounding. -/
def isInteger : Value → Bool
  | .vNum q => jsRound q == q
  | _ => false

/-- `isFloat` (src/validation.js): typeof value === "number". -/
def isFloat : Value → Bool
  | .vNum _ => true
  | _ => false

/-- `isBool` (src/validation.js): typeof value === "boolean". -/
def isBool : Value → Bool
  | .vBool _ => true
  | _ => false

/-! ## JS comparison semantics (the subset the filter evaluator exercises)

`===`/`!==` are structural on the primitive values modelled here. The
relational operators follow the abstract relational comparison: two strings
compare lexicographically; otherwise both sides are coerced to numbers and an
operand that coerces to NaN makes the comparison undefined (`<`/`>` then
yield false, `<=`/`>=` also yield false). Numeric strings are modelled for
decimal integer literals only; no claim below depends on richer coercions. -/

/-- JS `ToNumber` on primitives; `none` models NaN. -/
def toNumber : Value → Option ℚ
  | .vNum q => some q
  | .vBool b => some (if b then 1 else 0)
  | .vNull => some 0
  | .vStr s =>
      if s.trim = "" then some 0
      else (s.trim.toInt?).map (fun n => (n : ℚ))

/-- Lexicographic comparison of character sequences by code point, modelling
the code-unit comparison JS applies to strings. -/
def charListLt : List Char → List Char → Bool
  | [], [] => false
  | [], _ :: _ => true
  | _ :: _, [] => false
  | a :: as, b :: bs =>
      if a.val < b.val then true
      else if b.val < a.val then false
      else charListLt as bs

/-- Abstract relational comparison `x < y`; `none` models the undefined
result when a NaN is involved. -/
def arcLt (x y : Value) : Option Bool :=
  match x, y with
  | .vStr a, .vStr b => some (charListLt a.data b.data)
  | _, _ =>
      match toNumber x, toNumber y with
      | some a, some b => some (decide (a < b))
      | _, _ => none

/-- JS `x < y`. -/
def jsLt (x y : Value) : Bool := (arcLt x y).getD false

/-- JS `x > y`. -/
def jsGt (x y : Value) : Bool := (arcLt y x).getD false

/-- JS `x <= y`: false when `y < x` holds or is undefined. -/
def jsLe (x y : Value) : Bool :=
  match arcLt y x with
  | some r => !r
  | none => false

/-- JS `x >= y`: false when `x < y` holds or is undefined. -/
def jsGe (x y : Value) : Bool :=
  match arcLt x y with
  | some r => !r
  | none => false

/-! ## The storage (`Storage`-like key-value store)

Keys are strings. A stored value is the parse of the stored JSON string:
either an array of ids (under a `_list` key) or an object (under a `_detail_`
key). Every string this library ever stores is a non-empty JSON text, so the
JS falsy test `! storage.getItem(k)` coincides with absence of the key. -/

/-- A parsed stored value: a JSON array of ids, or a JSON object. -/
inductive StoreVal where
  | vList : List Value → StoreVal
  | vObj : Obj → StoreVal
  deriving DecidableEq, Repr

/-- The key-value store, keyed by strings (insertion-ordered, like the
`MockStorage` used by the tests; order of entries is unobservable through
`getItem`). -/
structure Store where
  entries : List (String × StoreVal)
  deriving DecidableEq, Repr

/-- `storage.getItem(key)`: `none` models `undefined`/`null`. -/
def Store.getItem (s : Store) (k : String) : Option StoreVal :=
  assocFind s.entries k

/-- `storage.setItem(key, value)`. -/
def Store.setItem (s : Store) (k : String) (v : StoreVal) : Store :=
  ⟨assocPut s.entries k v⟩

/-- `storage.removeItem(key)`. -/
def Store.removeItem (s : Store) (k : String) : Store :=
  ⟨assocDrop s.entries k⟩

/-! ## src/table.js: the LocalTable data model -/

/-- One entry of the `options["fields"]` array: a field specification object
with a name and optional `type`, `default` and `required` properties. The
source reads these with `hasOwnProperty`/strict comparison, so they are kept
as optional raw values (`required` only counts when it is literally
`false`). -/
structure FieldSpec where
  name : String
  type? : Option String := none
  default? : Option Value := none
  required? : Option Value := none
  deriving DecidableEq, Repr

/-- The class-level `fieldTypes` mapping of `LocalTable`: type name to
validator; the `obj` entry holds no validator (`null`). -/
def fieldTypes : List (String × Option (Value → Bool)) :=
  [("str", some isString),
   ("int", some isInteger),
   ("float", some isFloat),
   ("timestamp", some isInteger),
   ("bool", some isBool),
   ("obj", none)]

/-- `this.fieldTypes.hasOwnProperty(t)` / `this.fieldTypes[t]` lookup. -/
def lookupFieldType (t : String) : Option (Option (Value → Bool)) :=
  (fieldTypes.find? (fun p => p.1 == t)).map (fun p => p.2)

/-- The class-level `lookupTypes` array of recognized filter operators. -/
def lookupTypes : List String := ["=", ">", ">=", "<", "<=", "!="]

/-- The class-level `idField` name. -/
def idField : String := "id"

/-- A `LocalTable` instance: the storage reference, the table name, the
declared fields and the nullable in-memory id cache (`_cache_ids`; `none`
models the JS `null`, "unloaded"). -/
structure Table where
  storage : Store
  tableName : String
  _fields : List FieldSpec
  _cache_ids : Option (List Value)
  deriving DecidableEq, Repr

/-- String form of an id as interpolated by a JS template literal
(`` `${id}` ``); integral numbers print as decimal integers. -/
def idToString : Value → String
  | .vStr s => s
  | .vNum q => if q.den == 1 then toString q.num else toString q
  | .vBool b => if b then "true" else "false"
  | .vNull => "null"

/-- `_tableListName()`. -/
def Table._tableListName (t : Table) : String := t.tableName ++ "_list"

/-- `_detailName(id)`. -/
def Table._detailName (t : Table) (id : Value) : String :=
  t.tableName ++ "_detail_" ++ idToString id

/-- `_setIds()`: a `null` cache is replaced by the empty array, then the
cached id sequence is serialized and written under the list key. -/
def Table._setIds (t : Table) : Table :=
  let ids := t._cache_ids.getD []
  { t with
    _cache_ids := some ids,
    storage := t.storage.setItem t._tableListName (.vList ids) }

/-- `create()`: writes an (empty, unless already cached) index only when the
list key is absent from storage. -/
def Table.create (t : Table) : Table :=
  match t.storage.getItem t._tableListName with
  | none => t._setIds
  | some _ => t

/-- The constructor: stores the collaborators, sets `_cache_ids` to `null`
and ensures the table exists via `create()`. -/
def mkTable (storage : Store) (tableName : String) (fields : List FieldSpec) :
    Table :=
  Table.create
    { storage := storage, tableName := tableName,
      _fields := fields, _cache_ids := none }

/-- `_getIds()`: loads the cache from storage when it is `null`; when the
list key is absent this recreates the (empty) table. Returns the updated
instance together with the id sequence the source iterates afterwards. The
list key always holds an array when written by this library; an object found
there is outside the reachable states considered below and yields the empty
sequence. -/
def Table._getIds (t : Table) : Table × List Value :=
  match t._cache_ids with
  | some ids => (t, ids)
  | none =>
      match t.storage.getItem t._tableListName with
      | none =>
          let t' := t.create
          (t', t'._cache_ids.getD [])
      | some (.vList ids) => ({ t with _cache_ids := some ids }, ids)
      | some (.vObj _) => ({ t with _cache_ids := some [] }, [])

/-- `_pushNewId(id)`: a `null` cache is replaced by the empty array, the id
is appended, and the index is persisted. -/
def Table._pushNewId (t : Table) (id : Value) : Table :=
  let ids := t._cache_ids.getD []
  Table._setIds { t with _cache_ids := some (ids ++ [id]) }

/-- `_serializeData(data)`: copies every own key except `idField` into a
fresh object (insertion order preserved) and serializes it. -/
def Table._serializeData (data : Obj) : StoreVal :=
  .vObj (assocDrop data idField)

/-- Errors thrown by the library (plus the host TypeError for property access
on `null`/`undefined` and for `JSON.parse` of absent data). -/
inductive JsError where
  | notFound (id : Value)
  | alreadyExists (id : Value)
  | validationError (errors : List String)
  | invalidLookup (comparison : String)
  | typeError
  deriving DecidableEq, Repr

/-- `_deserializeData(id, data)`: parses the raw detail text and attaches the
id under `idField`. When the raw data is absent (`undefined`/`null`), the JS
`JSON.parse` / property assignment throws — modelled as a TypeError. A list
under a detail key is outside the reachable states considered below. -/
def Table._deserializeData (id : Value) (raw : Option StoreVal) :
    Except JsError Obj :=
  match raw with
  | some (.vObj o) => .ok (setProp o idField id)
  | some (.vList _) => .error .typeError
  | none => .error .typeError

/-- `drop()`: removes every detail entry reachable from the index, then the
index entry, and resets the cache to `null`. -/
def Table.drop (t : Table) : Table :=
  let (t₁, allIds) := t._getIds
  let t₂ := allIds.foldl
    (fun acc id => { acc with storage := acc.storage.removeItem (acc._detailName id) }) t₁
  { t₂ with
    storage := t₂.storage.removeItem t₂._tableListName,
    _cache_ids := none }

/-- `get(id)`: throws NotFound when the detail entry is absent, otherwise
deserializes it with the id reattached. -/
def Table.get (t : Table) (id : Value) : Except JsError Obj :=
  match t.storage.getItem (t._detailName id) with
  | none => .error (.notFound id)
  | some raw => Table._deserializeData id (some raw)

/-- `exists(id)` (named `existsRow` because `exists` is reserved in Lean):
true iff `get(id)` does not throw. -/
def Table.existsRow (t : Table) (id : Value) : Bool :=
  (t.get id).toBool

/-- `count()`: the length of the (possibly just loaded) index. -/
def Table.count (t : Table) : Table × Nat :=
  let (t', allIds) := t._getIds
  (t', allIds.length)

/-- The error descriptions one iteration of `_validate`'s field loop pushes
for a given data object: a "missing data" error when the field is absent with
no default and not `required: false`; an "invalid field type" error for an
unrecognized type name; an "invalid data type" error when the type's
validator (the `obj` type has none) rejects the present value. -/
def validateFieldErrors (data : Obj) (fieldAttrs : FieldSpec) : List String :=
  if ¬ hasProp data fieldAttrs.name then
    match fieldAttrs.default? with
    | some _ => []
    | none =>
        if fieldAttrs.required? == some (.vBool false) then []
        else ["Missing data for " ++ fieldAttrs.name]
  else
    let fieldType := fieldAttrs.type?.getD "str"
    match lookupFieldType fieldType with
    | none => ["Invalid field type provided: " ++ fieldType]
    | some none => []
    | some (some vf) =>
        match getProp data fieldAttrs.name with
        | some v =>
            if vf v then []
            else ["Invalid data type provided for field " ++ fieldAttrs.name]
        | none => []

/-- The mutation one iteration of `_validate`'s field loop applies to the
data object: a declared default is injected for a missing field (the only
branch of the source loop that writes to `data`); everything else leaves the
object untouched. -/
def validateFieldData (data : Obj) (fieldAttrs : FieldSpec) : Obj :=
  if ¬ hasProp data fieldAttrs.name then
    match fieldAttrs.default? with
    | some d => setProp data fieldAttrs.name d
    | none => data
  else data

/-- One iteration of `_validate`'s field loop, threading the collected error
list and the (mutated in place, in JS) data object. -/
def validateField (acc : List String × Obj) (fieldAttrs : FieldSpec) :
    List String × Obj :=
  (acc.1 ++ validateFieldErrors acc.2 fieldAttrs,
   validateFieldData acc.2 fieldAttrs)

/-- `_validate(data)`: walks the declared fields in order collecting error
descriptions; injecting a declared default mutates the data object passed in,
so the (possibly extended) data travels with the errors. -/
def Table._validate (fields : List FieldSpec) (data : Obj) :
    List String × Obj :=
  fields.foldl validateField ([], data)

/-- Modelled from the spec: "m with declared defaults applied for fields
missing from m" — walk the declared fields in order and inject each declared
default whose field the mapping lacks. (This is also exactly the mutation
`_validate` applies to its argument; the agreement is proved below.) -/
def applyDefaults (fields : List FieldSpec) (data : Obj) : Obj :=
  fields.foldl validateFieldData data

/-- `insert(id, data)`. The result is the post-call instance (a thrown error
leaves the state as mutated so far — here no store write precedes a throw),
the caller's data object after the call (`_validate` mutates it in place),
and the thrown error, if any. On success the serialized data is persisted
under the detail key first, then the id is appended to the index. -/
def Table.insert (t : Table) (id : Value) (data : Obj) :
    Table × Obj × Option JsError :=
  if t.existsRow id then (t, data, some (.alreadyExists id))
  else
    let (errors, data') := Table._validate t._fields data
    if errors.length > 0 then (t, data', some (.validationError errors))
    else
      let t₁ := { t with
        storage := t.storage.setItem (t._detailName id) (Table._serializeData data') }
      (t₁._pushNewId id, data', none)

/-- `update(id, newData)`: starts from the current row (or an empty object
when `get` throws), copies the new fields over it, validates the merged
object, and on success persists it, appending the id to the index only when
the row was not previously present. `newData` itself is never written to. -/
def Table.update (t : Table) (id : Value) (newData : Obj) :
    Table × Option JsError :=
  let found := t.existsRow id
  let currentData := match t.get id with
    | .ok d => d
    | .error _ => []
  let merged := newData.foldl (fun acc p => setProp acc p.1 p.2) currentData
  let (errors, merged') := Table._validate t._fields merged
  if errors.length > 0 then (t, some (.validationError errors))
  else
    let t₁ := { t with
      storage := t.storage.setItem (t._detailName id) (Table._serializeData merged') }
    (if found then t₁ else t₁._pushNewId id, none)

/-- One recognized comparison of the `switch` in `_defaultFiltering`; the
`default` arm (unreachable, since membership in `lookupTypes` was checked
just before) throws as well. -/
def applyLookup (comparison : String) (currentValue desiredValue : Value) :
    Except JsError Bool :=
  if comparison == "=" then .ok (currentValue == desiredValue)
  else if comparison == ">" then .ok (jsGt currentValue desiredValue)
  else if comparison == ">=" then .ok (jsGe currentValue desiredValue)
  else if comparison == "<" then .ok (jsLt currentValue desiredValue)
  else if comparison == "<=" then .ok (jsLe currentValue desiredValue)
  else if comparison == "!=" then .ok (currentValue != desiredValue)
  else .error (.invalidLookup comparison)

/-- The inner loop of `_defaultFiltering` over one field's lookup data: each
comparison key is first checked against `lookupTypes` (an unrecognized one
throws immediately), then evaluated; the `matched` bits produced by this
field are returned in order. -/
def evalLookupData (currentValue : Value) : Obj → Except JsError (List Bool)
  | [] => .ok []
  | (comparison, desiredValue) :: rest =>
      if lookupTypes.contains comparison then
        match applyLookup comparison currentValue desiredValue with
        | .ok b => (evalLookupData currentValue rest).map (fun bs => b :: bs)
        | .error e => .error e
      else .error (.invalidLookup comparison)

/-- The outer loop of `_defaultFiltering` over the filter fields: a field
absent from the row is skipped (its comparisons are never examined, not even
for operator validity); a present field contributes its comparison bits. -/
def collectMatched (detailData : Obj) : List (String × Obj) → Except JsError (List Bool)
  | [] => .ok []
  | (fieldName, lookupData) :: rest =>
      if ¬ hasProp detailData fieldName then collectMatched detailData rest
      else
        -- the guard ensures the property is present; the default is unreachable
        let currentValue := (getProp detailData fieldName).getD .vNull
        match evalLookupData currentValue lookupData with
        | .ok bs => (collectMatched detailData rest).map (fun more => bs ++ more)
        | .error e => .error e

/-- `_defaultFiltering(filterBy, detailData)`: `matched` starts as `[true]`,
collects one bit per evaluated comparison, and the row matches when every
bit is `true`. -/
def Table._defaultFiltering (filterBy : List (String × Obj)) (detailData : Obj) :
    Except JsError Bool :=
  (collectMatched detailData filterBy).map
    (fun bits => (true :: bits).all (fun bit => bit == true))

/-- The `filterBy` argument of `filter`: either a custom callable or a
declarative field-to-lookups mapping (the source dispatches on
`isFunction`). -/
inductive FilterBy where
  | func : (Obj → Bool) → FilterBy
  | mapping : List (String × Obj) → FilterBy

/-- One iteration of `_filter`'s loop: reads the raw detail data (when it is
absent the source logs a skip message but still calls `_deserializeData`,
which throws), then applies the filter; `some row` means the row is pushed
onto the result. -/
def Table.filterStep (t : Table) (filterBy : Option FilterBy) (id : Value) :
    Except JsError (Option Obj) := do
  let rawData := t.storage.getItem (t._detailName id)
  let detailData ← Table._deserializeData id rawData
  match filterBy with
  | none => .ok (some detailData)
  | some (.func f) => .ok (if f detailData then some detailData else none)
  | some (.mapping m) => do
      let b ← Table._defaultFiltering m detailData
      .ok (if b then some detailData else none)

/-- The loop of `_filter` over the index, accumulating matched rows in index
order. -/
def Table.filterLoop (t : Table) (filterBy : Option FilterBy) :
    List Value → Except JsError (List Obj)
  | [] => .ok []
  | id :: rest => do
      match ← t.filterStep filterBy id with
      | some d => (t.filterLoop filterBy rest).map (fun more => d :: more)
      | none => t.filterLoop filterBy rest

/-- `_filter(filterBy)`: resolves the index (possibly loading it), then scans
it. The first component is the post-call instance (the scan itself never
writes; only the index resolution can, when it recreates a missing index);
the second is the matched rows in index order, or the thrown error. -/
def Table._filter (t : Table) (filterBy : Option FilterBy) :
    Table × Except JsError (List Obj) :=
  let (t', allIds) := t._getIds
  (t', t'.filterLoop filterBy allIds)

/-- `all()`. -/
def Table.all (t : Table) : Table × Except JsError (List Obj) :=
  t._filter none

/-- `filter(filterBy)` with an explicit argument. -/
def Table.filter (t : Table) (filterBy : FilterBy) :
    Table × Except JsError (List Obj) :=
  t._filter (some filterBy)

/-- `delete(id)`: removes the detail entry unconditionally, then filters the
id out of `this._cache_ids` and persists the index. When the cache is still
`null` (unloaded), `null.filter` throws a TypeError — the detail removal has
already happened at that point. -/
def Table.delete (t : Table) (id : Value) : Table × Option JsError :=
  let t₁ := { t with storage := t.storage.removeItem (t._detailName id) }
  match t₁._cache_ids with
  | none => (t₁, some .typeError)
  | some ids =>
      (Table._setIds
        { t₁ with _cache_ids := some (ids.filter (fun currentId => currentId ≠ id)) },
       none)


deriving instance DecidableEq for Except

/-- Total evaluation of one recognized comparison (the semantics of the
`switch` restricted to the six recognized operators). -/
def evalCmp (comparison : String) (cur des : Value) : Bool :=
  if comparison == "=" then cur == des
  else if comparison == ">" then jsGt cur des
  else if comparison == ">=" then jsGe cur des
  else if comparison == "<" then jsLt cur des
  else if comparison == "<=" then jsLe cur des
  else if comparison == "!=" then cur != des
  else false

/-- The declarative-filter row predicate, stated the way the spec reads: a
row matches when, for every field of the mapping that is present on the row,
every operator-value pair for that field evaluates true; a field absent from
the row is skipped. -/
def matchesRow (filterBy : List (String × Obj)) (row : Obj) : Bool :=
  filterBy.all (fun fc =>
    if hasProp row fc.1 then
      fc.2.all (fun ov => evalCmp ov.1 ((getProp row fc.1).getD .vNull) ov.2)
    else true)

/-- Whether an optional stored value is a present object. -/
def isObjVal : Option StoreVal → Bool
  | some (.vObj _) => true
  | _ => false

/-- The row a table yields for an id whose detail entry is a present object:
the stored payload with the id reattached. -/
def rowOf (t : Table) (id : Value) : Obj :=
  match t.storage.getItem (t._detailName id) with
  | some (.vObj o) => setProp o idField id
  | _ => []

/-! ## Index/detail agreement and concrete scenarios -/

/-- Character-list test that `pre` starts `s`. -/
def charsStart : List Char → List Char → Bool
  | [], _ => true
  | _ :: _, [] => false
  | a :: as, b :: bs => a == b && charsStart as bs

/-- Whether a storage key belongs to the detail-key family of a table. -/
def isDetailKeyOf (tableName : String) (k : String) : Bool :=
  charsStart (tableName ++ "_detail_").data k.data

/-- The spec's index/detail invariant, as a check on a store: every id in the
persisted `<tableName>_list` sequence has a `<tableName>_detail_<id>` entry,
and every key of the detail family corresponds to an id of the sequence (an
absent or ill-formed index counts as the empty sequence, so no detail entry
may remain). -/
def indexDetailAgree (store : Store) (tableName : String) : Bool :=
  let ids := match store.getItem (tableName ++ "_list") with
    | some (.vList l) => l
    | _ => []
  ids.all (fun id =>
    (store.getItem (tableName ++ "_detail_" ++ idToString id)).isSome)
  && store.entries.all (fun p =>
      !(isDetailKeyOf tableName p.1) ||
      ids.any (fun id => (tableName ++ "_detail_" ++ idToString id) == p.1))

/-- The table schema the repository's tests use. -/
def msgFields : List FieldSpec := [{ name := "message", type? := some "str" }]

/-- A store as left behind by a previous session: the persisted index holds
id 1 and the matching detail entry exists. -/
def seededStore : Store :=
  ⟨[("records_list", .vList [.vNum 1]),
    ("records_detail_1", .vObj [("message", .vStr "Hello")])]⟩

/-- A fresh instance over `seededStore`: the constructor's `create()` sees
the list key present and therefore leaves the id cache unloaded (`null`). -/
def seededTable : Table := mkTable seededStore "records" msgFields

/-- A store whose index references id 1 but holds no detail entry for it
(e.g. the key was removed by hand). -/
def danglingStore : Store := ⟨[("records_list", .vList [.vNum 1])]⟩

/-- A table over `danglingStore`. -/
def danglingTable : Table := mkTable danglingStore "records" msgFields

/-- The empty store. -/
def emptyStore : Store := ⟨[]⟩

/-- A table created from scratch over an empty store. -/
def freshTable : Table := mkTable emptyStore "records" msgFields

/-- `freshTable` with one row inserted (id cache loaded). -/
def loadedTable : Table :=
  (freshTable.insert (.vNum 1) [("message", .vStr "Hello")]).1

/-- `loadedTable` after `drop()`: storage cleared, id cache reset to
unloaded. -/
def droppedTable : Table := loadedTable.drop

/-- A schema with a defaulted `int` field. -/
def defaultedFields : List FieldSpec :=
  [{ name := "firstName", type? := some "str" },
   { name := "loginCount", type? := some "int", default? := some (.vNum 0) }]

/-- A table over the empty store with `defaultedFields`. -/
def usersTable : Table := mkTable emptyStore "users" defaultedFields

/-- A field whose declared default fails its own `int` type validator. -/
def illTypedField : FieldSpec :=
  { name := "n", type? := some "int", default? := some (.vStr "oops") }

/-- A table declaring only `illTypedField`. -/
def illTypedTable : Table := mkTable emptyStore "x" [illTypedField]


/-! ## Toolkit: lemmas about the association primitives -/

theorem assocFind_cons (p : String × α) (l : List (String × α)) (k : String) :
    assocFind (p :: l) k = if p.1 == k then some p.2 else assocFind l k := by
  by_cases h : p.1 == k <;> simp [assocFind, List.find?_cons, h]

theorem assocFind_map_self (l : List (String × α)) (k : String) (v : α)
    (h : (assocFind l k).isSome = true) :
    assocFind (l.map (fun p => if p.1 == k then (k, v) else p)) k = some v := by
  induction l with
  | nil => simp [assocFind] at h
  | cons p l ih =>
      rw [List.map_cons]
      by_cases hp : (p.1 == k) = true
      · rw [if_pos hp, assocFind_cons]
        simp
      · rw [if_neg hp, assocFind_cons]
        rw [assocFind_cons] at h
        rw [if_neg hp]
        rw [if_neg hp] at h
        exact ih h

theorem assocFind_map_ne (l : List (String × α)) (k k' : String) (v : α)
    (h : k' ≠ k) :
    assocFind (l.map (fun p => if p.1 == k then (k, v) else p)) k' =
      assocFind l k' := by
  induction l with
  | nil => rfl
  | cons p l ih =>
      rw [List.map_cons, assocFind_cons, assocFind_cons]
      by_cases hp : (p.1 == k) = true
      · have hpk : p.1 = k := by simpa [beq_iff_eq] using hp
        have hne : (k == k') = false := by
          simp only [beq_eq_false_iff_ne]; exact fun hh => h hh.symm
        have hp' : (p.1 == k') = false := by
          simp only [beq_eq_false_iff_ne, hpk]; exact fun hh => h hh.symm
        rw [if_pos hp]
        simp only [hne, hp', if_false, Bool.false_eq_true]
        exact ih
      · rw [if_neg hp]
        by_cases hp' : (p.1 == k') = true
        · simp only [hp', if_true]
        · simp only [hp', if_false, Bool.false_eq_true]
          exact ih

theorem assocFind_append_single (l : List (String × α)) (k k' : String) (v : α) :
    assocFind (l ++ [(k, v)]) k' =
      match assocFind l k' with
      | some w => some w
      | none => if k == k' then some v else none := by
  induction l with
  | nil => simp [assocFind_cons, assocFind]
  | cons p l ih =>
      rw [List.cons_append, assocFind_cons, assocFind_cons]
      by_cases hp : (p.1 == k') = true
      · simp only [hp, if_true]
      · simp only [hp, if_false, Bool.false_eq_true]
        exact ih

theorem assocFind_put_self (l : List (String × α)) (k : String) (v : α) :
    assocFind (assocPut l k v) k = some v := by
  unfold assocPut
  by_cases h : (assocFind l k).isSome
  · simp only [h, if_true]
    exact assocFind_map_self l k v h
  · simp only [h]
    rw [if_neg (by simp [h])]
    rw [assocFind_append_single]
    have h0 : assocFind l k = none := by
      cases hx : assocFind l k with
      | none => rfl
      | some w => rw [hx] at h; simp at h
    simp [h0]

theorem assocFind_put_ne (l : List (String × α)) (k k' : String) (v : α)
    (h : k' ≠ k) :
    assocFind (assocPut l k v) k' = assocFind l k' := by
  unfold assocPut
  by_cases hs : (assocFind l k).isSome
  · simp only [hs, if_true]
    exact assocFind_map_ne l k k' v h
  · simp only [hs]
    rw [if_neg (by simp [hs])]
    rw [assocFind_append_single]
    have hne : (k == k') = false := by
      simp only [beq_eq_false_iff_ne]; exact fun hh => h hh.symm
    cases hx : assocFind l k' <;> simp [hne]

theorem assocFind_drop_self (l : List (String × α)) (k : String) :
    assocFind (assocDrop l k) k = none := by
  induction l with
  | nil => rfl
  | cons p l ih =>
      by_cases hp : p.1 == k
      · simpa [assocDrop, List.filter, bne, hp] using ih
      · simp only [assocDrop, List.filter, bne, hp] at ih ⊢
        simpa [assocFind_cons, hp] using ih

theorem assocFind_drop_ne (l : List (String × α)) (k k' : String)
    (h : k' ≠ k) :
    assocFind (assocDrop l k) k' = assocFind l k' := by
  induction l with
  | nil => rfl
  | cons p l ih =>
      by_cases hp : p.1 == k
      · have hpk : p.1 = k := by simpa [beq_iff_eq] using hp
        have hp' : (p.1 == k') = false := by
          simp only [beq_eq_false_iff_ne, hpk]; exact fun hh => h hh.symm
        simp only [assocDrop, List.filter, bne, hp] at ih ⊢
        simpa [assocFind_cons, hp'] using ih
      · simp only [assocDrop, List.filter, bne, hp] at ih ⊢
        simp [assocFind_cons, ih]

/-! ## Toolkit: store, object and key lemmas -/

theorem getItem_setItem_self (s : Store) (k : String) (v : StoreVal) :
    (s.setItem k v).getItem k = some v :=
  assocFind_put_self s.entries k v

theorem getItem_setItem_ne (s : Store) (k k' : String) (v : StoreVal)
    (h : k' ≠ k) : (s.setItem k v).getItem k' = s.getItem k' :=
  assocFind_put_ne s.entries k k' v h

theorem getItem_removeItem_self (s : Store) (k : String) :
    (s.removeItem k).getItem k = none :=
  assocFind_drop_self s.entries k

theorem getItem_removeItem_ne (s : Store) (k k' : String)
    (h : k' ≠ k) : (s.removeItem k).getItem k' = s.getItem k' :=
  assocFind_drop_ne s.entries k k' h

theorem getProp_setProp_self (m : Obj) (k : String) (v : Value) :
    getProp (setProp m k v) k = some v :=
  assocFind_put_self m k v

theorem getProp_setProp_ne (m : Obj) (k k' : String) (v : Value)
    (h : k' ≠ k) : getProp (setProp m k v) k' = getProp m k' :=
  assocFind_put_ne m k k' v h

theorem hasProp_setProp_self (m : Obj) (k : String) (v : Value) :
    hasProp (setProp m k v) k = true := by
  simp [hasProp, setProp, assocFind_put_self m k v]

theorem hasProp_setProp_ne (m : Obj) (k k' : String) (v : Value)
    (h : k' ≠ k) : hasProp (setProp m k v) k' = hasProp m k' := by
  simp [hasProp, setProp, assocFind_put_ne m k k' v h]

theorem getProp_assocDrop_self (m : Obj) (k : String) :
    getProp (assocDrop m k) k = none :=
  assocFind_drop_self m k

theorem getProp_assocDrop_ne (m : Obj) (k k' : String)
    (h : k' ≠ k) : getProp (assocDrop m k) k' = getProp m k' :=
  assocFind_drop_ne m k k' h

theorem hasProp_assocDrop_self (m : Obj) (k : String) :
    hasProp (assocDrop m k) k = false := by
  simp [hasProp, assocFind_drop_self m k]

/-- The list key of a table is never a detail key of the same table. -/
theorem listKey_ne_detailKey (tn s : String) :
    tn ++ "_list" ≠ tn ++ "_detail_" ++ s := by
  intro h
  have hd := congrArg String.data h
  rw [String.data_append, String.data_append, String.data_append] at hd
  rw [List.append_assoc] at hd
  have h2 := List.append_cancel_left hd
  have e1 : "_list".data = ['_', 'l', 'i', 's', 't'] := by decide
  have e2 : "_detail_".data = ['_', 'd', 'e', 't', 'a', 'i', 'l', '_'] := by decide
  rw [e1, e2] at h2
  simp at h2

/-! ## Toolkit: validation lemmas -/

theorem validate_foldl_append (fields : List FieldSpec) (e : List String) (d : Obj) :
    fields.foldl validateField (e, d) =
      (e ++ (fields.foldl validateField ([], d)).1,
       (fields.foldl validateField ([], d)).2) := by
  induction fields generalizing e d with
  | nil => simp
  | cons f fs ih =>
      rw [List.foldl_cons, List.foldl_cons]
      rw [show validateField (e, d) f =
            (e ++ validateFieldErrors d f, validateFieldData d f) from rfl]
      rw [show validateField ([], d) f =
            ([] ++ validateFieldErrors d f, validateFieldData d f) from rfl]
      rw [ih (e ++ validateFieldErrors d f) (validateFieldData d f)]
      rw [ih ([] ++ validateFieldErrors d f) (validateFieldData d f)]
      simp

/-- The mutation `_validate` applies to its argument is exactly the
application of declared defaults. -/
theorem validate_snd (fields : List FieldSpec) (d : Obj) :
    (Table._validate fields d).2 = applyDefaults fields d := by
  unfold Table._validate applyDefaults
  induction fields generalizing d with
  | nil => rfl
  | cons f fs ih =>
      rw [List.foldl_cons, List.foldl_cons]
      rw [show validateField ([], d) f =
            ([] ++ validateFieldErrors d f, validateFieldData d f) from rfl]
      rw [validate_foldl_append fs _ (validateFieldData d f)]
      exact ih (validateFieldData d f)

/-- Applying defaults never disturbs a key that is already present. -/
theorem applyDefaults_preserves (fields : List FieldSpec) (d : Obj) (k : String)
    (h : hasProp d k = true) :
    getProp (applyDefaults fields d) k = getProp d k ∧
      hasProp (applyDefaults fields d) k = true := by
  induction fields generalizing d with
  | nil => exact ⟨rfl, h⟩
  | cons f fs ih =>
      simp only [applyDefaults, List.foldl_cons] at ih ⊢
      by_cases hf : hasProp d f.name = true
      · have hstep : validateFieldData d f = d := by
          simp [validateFieldData, hf]
        rw [hstep]
        exact ih d h
      · cases hdf : f.default? with
        | none =>
            have hstep : validateFieldData d f = d := by
              simp [validateFieldData, hf, hdf]
            rw [hstep]
            exact ih d h
        | some dv =>
            have hne : f.name ≠ k := by
              intro hh
              rw [hh] at hf
              exact hf h
            have hstep : validateFieldData d f = setProp d f.name dv := by
              simp [validateFieldData, hf, hdf]
            rw [hstep]
            have h' : hasProp (setProp d f.name dv) k = true := by
              rw [hasProp_setProp_ne d f.name k dv (Ne.symm hne)]
              exact h
            obtain ⟨hg, hh⟩ := ih (setProp d f.name dv) h'
            refine ⟨?_, hh⟩
            rw [hg, getProp_setProp_ne d f.name k dv (Ne.symm hne)]

/-- A declared default for a field the data lacks ends up in the defaulted
data (field names assumed pairwise distinct, as the spec's FieldSpec
invariant requires). -/
theorem applyDefaults_injects (fields : List FieldSpec) (fa : FieldSpec)
    (v : Value) (hdef : fa.default? = some v)
    (hnd : (fields.map FieldSpec.name).Nodup) (hmem : fa ∈ fields) :
    ∀ d : Obj, hasProp d fa.name = false →
      getProp (applyDefaults fields d) fa.name = some v := by
  induction fields with
  | nil => cases hmem
  | cons f fs ih =>
      intro d habs
      simp only [applyDefaults, List.foldl_cons]
      rcases List.mem_cons.mp hmem with heq | hmem'
      · subst heq
        have hstep : validateFieldData d fa = setProp d fa.name v := by
          simp [validateFieldData, habs, hdef]
        rw [hstep]
        have hpres := applyDefaults_preserves fs (setProp d fa.name v) fa.name
          (hasProp_setProp_self d fa.name v)
        simp only [applyDefaults] at hpres
        rw [hpres.1, getProp_setProp_self]
      · have hnotin : f.name ∉ fs.map FieldSpec.name := (List.nodup_cons.mp hnd).1
        have hfname : f.name ≠ fa.name := by
          intro hh
          exact hnotin (hh ▸ List.mem_map_of_mem FieldSpec.name hmem')
        have habs' : hasProp (validateFieldData d f) fa.name = false := by
          by_cases hf : hasProp d f.name = true
          · simpa [validateFieldData, hf] using habs
          · cases hdf : f.default? with
            | none => simpa [validateFieldData, hf, hdf] using habs
            | some w =>
                rw [show validateFieldData d f = setProp d f.name w by
                  simp [validateFieldData, hf, hdf]]
                rw [hasProp_setProp_ne d f.name fa.name w (Ne.symm hfname)]
                exact habs
        have ih' := ih (List.Nodup.of_cons hnd) hmem' (validateFieldData d f) habs'
        simpa [applyDefaults] using ih'

/-- The errors one field contributes depend only on the data's view at that
field's name. -/
theorem validateFieldErrors_congr (d₁ d₀ : Obj) (fa : FieldSpec) (k : String)
    (hk : fa.name ≠ k)
    (hH : ∀ n, n ≠ k → hasProp d₁ n = hasProp d₀ n)
    (hG : ∀ n, n ≠ k → getProp d₁ n = getProp d₀ n) :
    validateFieldErrors d₁ fa = validateFieldErrors d₀ fa := by
  unfold validateFieldErrors
  rw [hH fa.name hk, hG fa.name hk]

/-- Default injection preserves agreement of two data objects away from a
distinguished key. -/
theorem validateFieldData_congr (d₁ d₀ : Obj) (fa : FieldSpec) (k : String)
    (hk : fa.name ≠ k)
    (hH : ∀ n, n ≠ k → hasProp d₁ n = hasProp d₀ n)
    (hG : ∀ n, n ≠ k → getProp d₁ n = getProp d₀ n) :
    (∀ n, n ≠ k →
        hasProp (validateFieldData d₁ fa) n = hasProp (validateFieldData d₀ fa) n) ∧
    (∀ n, n ≠ k →
        getProp (validateFieldData d₁ fa) n = getProp (validateFieldData d₀ fa) n) := by
  unfold validateFieldData
  rw [hH fa.name hk]
  by_cases hf : hasProp d₀ fa.name = true
  · rw [if_neg (by simp [hf]), if_neg (by simp [hf])]
    exact ⟨hH, hG⟩
  · rw [if_pos (by simp [hf]), if_pos (by simp [hf])]
    cases hdf : fa.default? with
    | none => exact ⟨hH, hG⟩
    | some dv =>
        constructor
        · intro n hn
          by_cases hn' : n = fa.name
          · subst hn'
            rw [hasProp_setProp_self, hasProp_setProp_self]
          · rw [hasProp_setProp_ne _ _ _ _ hn', hasProp_setProp_ne _ _ _ _ hn']
            exact hH n hn
        · intro n hn
          by_cases hn' : n = fa.name
          · subst hn'
            rw [getProp_setProp_self, getProp_setProp_self]
          · rw [getProp_setProp_ne _ _ _ _ hn', getProp_setProp_ne _ _ _ _ hn']
            exact hG n hn

/-- Validation errors are identical on two data objects that agree away from
a key named by no declared field. -/
theorem validate_congr (fields : List FieldSpec) (k : String)
    (hk : ∀ fa ∈ fields, fa.name ≠ k) :
    ∀ (d₁ d₀ : Obj),
      (∀ n, n ≠ k → hasProp d₁ n = hasProp d₀ n) →
      (∀ n, n ≠ k → getProp d₁ n = getProp d₀ n) →
      (Table._validate fields d₁).1 = (Table._validate fields d₀).1 := by
  induction fields with
  | nil => intro d₁ d₀ hH hG; rfl
  | cons f fs ih =>
      intro d₁ d₀ hH hG
      have hkf := hk f (List.mem_cons_self f fs)
      have hk' : ∀ fa ∈ fs, fa.name ≠ k :=
        fun fa hfa => hk fa (List.mem_cons_of_mem f hfa)
      unfold Table._validate
      rw [List.foldl_cons, List.foldl_cons]
      rw [show validateField ([], d₁) f =
            ([] ++ validateFieldErrors d₁ f, validateFieldData d₁ f) from rfl]
      rw [show validateField ([], d₀) f =
            ([] ++ validateFieldErrors d₀ f, validateFieldData d₀ f) from rfl]
      rw [validate_foldl_append fs _ (validateFieldData d₁ f)]
      rw [validate_foldl_append fs _ (validateFieldData d₀ f)]
      obtain ⟨hH', hG'⟩ := validateFieldData_congr d₁ d₀ f k hkf hH hG
      have hrest := ih hk' (validateFieldData d₁ f) (validateFieldData d₀ f) hH' hG'
      unfold Table._validate at hrest
      simp only [List.nil_append]
      rw [validateFieldErrors_congr d₁ d₀ f k hkf hH hG, hrest]

/-! ## Toolkit: insert and get -/

theorem existsRow_eq_false (t : Table) (id : Value)
    (h1 : t.storage.getItem (t._detailName id) = none) :
    t.existsRow id = false := by
  unfold Table.existsRow Table.get
  rw [h1]
  rfl

/-- A successful insert in explicit form: the detail entry is written first,
then the id is appended to the index; the caller's data comes back with the
declared defaults injected. -/
theorem insert_success (t : Table) (id : Value) (data : Obj)
    (h1 : t.storage.getItem (t._detailName id) = none)
    (h2 : (Table._validate t._fields data).1 = []) :
    t.insert id data =
      (Table._pushNewId
        { t with storage := (t.storage.setItem (t._detailName id)
            (Table._serializeData (applyDefaults t._fields data))) } id,
       applyDefaults t._fields data, none) := by
  have hv : Table._validate t._fields data = ([], applyDefaults t._fields data) := by
    rw [← h2, ← validate_snd t._fields data]
  unfold Table.insert
  rw [existsRow_eq_false t id h1, hv]
  simp

/-- Reading back the row just inserted: the persisted payload is the
defaulted data stripped of any `id` key, and `get` reattaches the id. -/
theorem get_after_insert (t : Table) (id : Value) (data : Obj)
    (h1 : t.storage.getItem (t._detailName id) = none)
    (h2 : (Table._validate t._fields data).1 = []) :
    (t.insert id data).1.get id =
      .ok (setProp (assocDrop (applyDefaults t._fields data) idField) idField id) := by
  rw [insert_success t id data h1 h2]
  unfold Table._pushNewId Table._setIds Table.get Table._detailName Table._tableListName
  simp only []
  rw [getItem_setItem_ne _ _ _ _
    (Ne.symm (listKey_ne_detailKey t.tableName (idToString id)))]
  rw [getItem_setItem_self]
  rfl

/-- The detail entry just inserted, as persisted. -/
theorem stored_after_insert (t : Table) (id : Value) (data : Obj)
    (h1 : t.storage.getItem (t._detailName id) = none)
    (h2 : (Table._validate t._fields data).1 = []) :
    (t.insert id data).1.storage.getItem ((t.insert id data).1._detailName id) =
      some (.vObj (assocDrop (applyDefaults t._fields data) idField)) := by
  rw [insert_success t id data h1 h2]
  unfold Table._pushNewId Table._setIds Table._detailName Table._tableListName
  simp only []
  rw [getItem_setItem_ne _ _ _ _
    (Ne.symm (listKey_ne_detailKey t.tableName (idToString id)))]
  rw [getItem_setItem_self]
  rfl

/-! ## Toolkit: the filter evaluator -/

theorem applyLookup_eq_evalCmp (comparison : String)
    (h : comparison ∈ lookupTypes) (cur des : Value) :
    applyLookup comparison cur des = .ok (evalCmp comparison cur des) := by
  simp only [lookupTypes, List.mem_cons, List.not_mem_nil, or_false] at h
  rcases h with rfl | rfl | rfl | rfl | rfl | rfl <;> rfl

theorem evalLookupData_ok (cur : Value) (ld : Obj)
    (h : ∀ p ∈ ld, p.1 ∈ lookupTypes) :
    evalLookupData cur ld = .ok (ld.map (fun p => evalCmp p.1 cur p.2)) := by
  induction ld with
  | nil => rfl
  | cons p rest ih =>
      have hp := h p (List.mem_cons_self p rest)
      have hcont : lookupTypes.contains p.1 = true := by
        exact List.elem_eq_true_of_mem hp
      obtain ⟨c, des⟩ := p
      unfold evalLookupData
      rw [if_pos hcont]
      rw [applyLookup_eq_evalCmp c hp cur des]
      rw [ih (fun q hq => h q (List.mem_cons_of_mem _ hq))]
      rfl

theorem all_map_beq_true (l : List α) (f : α → Bool) :
    (l.map f).all (fun b => b == true) = l.all f := by
  induction l with
  | nil => rfl
  | cons a l ih =>
      rw [List.map_cons, List.all_cons, List.all_cons, ih]
      simp

theorem collectMatched_ok (row : Obj) (m : List (String × Obj))
    (h : ∀ fc ∈ m, ∀ ov ∈ fc.2, ov.1 ∈ lookupTypes) :
    ∃ bits, collectMatched row m = .ok bits ∧
      bits.all (fun b => b == true) = matchesRow m row := by
  induction m with
  | nil => exact ⟨[], rfl, rfl⟩
  | cons fc rest ih =>
      obtain ⟨bits, hb, hall⟩ :=
        ih (fun q hq => h q (List.mem_cons_of_mem _ hq))
      by_cases hf : hasProp row fc.1 = true
      · have hops := h fc (List.mem_cons_self fc rest)
        refine ⟨fc.2.map (fun ov =>
            evalCmp ov.1 ((getProp row fc.1).getD .vNull) ov.2) ++ bits, ?_, ?_⟩
        · unfold collectMatched
          rw [if_neg (by simp [hf])]
          simp only [evalLookupData_ok _ _ hops, hb, Except.map]
        · rw [List.all_append, hall]
          unfold matchesRow
          rw [List.all_cons]
          rw [if_pos hf]
          congr 1
          exact all_map_beq_true fc.2
            (fun ov => evalCmp ov.1 ((getProp row fc.1).getD .vNull) ov.2)

      · refine ⟨bits, ?_, ?_⟩
        · unfold collectMatched
          rw [if_pos (by simp [hf])]
          exact hb
        · rw [hall]
          unfold matchesRow
          rw [List.all_cons, if_neg hf]
          simp [matchesRow]

theorem defaultFiltering_ok (m : List (String × Obj)) (row : Obj)
    (h : ∀ fc ∈ m, ∀ ov ∈ fc.2, ov.1 ∈ lookupTypes) :
    Table._defaultFiltering m row = .ok (matchesRow m row) := by
  obtain ⟨bits, hb, hall⟩ := collectMatched_ok row m h
  unfold Table._defaultFiltering
  rw [hb]
  simp only [Except.map, List.all_cons]
  rw [← hall]
  simp

theorem filterStep_mapping (t : Table) (m : List (String × Obj)) (id : Value)
    (hd : isObjVal (t.storage.getItem (t._detailName id)) = true)
    (hop : ∀ fc ∈ m, ∀ ov ∈ fc.2, ov.1 ∈ lookupTypes) :
    t.filterStep (some (.mapping m)) id =
      .ok (if matchesRow m (rowOf t id) then some (rowOf t id) else none) := by
  unfold Table.filterStep
  cases hx : t.storage.getItem (t._detailName id) with
  | none => rw [hx] at hd; simp [isObjVal] at hd
  | some sv =>
      cases sv with
      | vList l => rw [hx] at hd; simp [isObjVal] at hd
      | vObj o =>
          have hrow : rowOf t id = setProp o idField id := by
            unfold rowOf
            rw [hx]
          rw [hrow]
          show (Table._deserializeData id (some (.vObj o))).bind _ = _
          rw [show Table._deserializeData id (some (.vObj o)) =
                .ok (setProp o idField id) from rfl]
          show (Table._defaultFiltering m (setProp o idField id)).bind _ = _
          rw [defaultFiltering_ok m (setProp o idField id) hop]
          rfl

theorem filterLoop_mapping (t : Table) (m : List (String × Obj))
    (ids : List Value)
    (hd : ∀ id ∈ ids, isObjVal (t.storage.getItem (t._detailName id)) = true)
    (hop : ∀ fc ∈ m, ∀ ov ∈ fc.2, ov.1 ∈ lookupTypes) :
    t.filterLoop (some (.mapping m)) ids =
      .ok ((ids.map (rowOf t)).filter (matchesRow m)) := by
  induction ids with
  | nil => rfl
  | cons id rest ih =>
      have hstep := filterStep_mapping t m id (hd id (List.mem_cons_self id rest)) hop
      have ihr := ih (fun i hi => hd i (List.mem_cons_of_mem _ hi))
      unfold Table.filterLoop
      rw [hstep]
      by_cases hm : matchesRow m (rowOf t id) = true
      · rw [if_pos hm]
        show Except.map _ (t.filterLoop (some (.mapping m)) rest) = _
        rw [ihr]
        rw [List.map_cons, List.filter_cons, if_pos hm]
        rfl
      · rw [if_neg hm]
        show t.filterLoop (some (.mapping m)) rest = _
        rw [ihr]
        rw [List.map_cons, List.filter_cons,
          if_neg (by simpa using hm)]


section ClaimTheorems

attribute [local semireducible] Rat.add Rat.mul Rat.inv Rat.sub Rat.ofScientific

/-- C1. The claimed invariant — index and detail entries agree after every
completed public operation, in particular on an instance whose id cache is
still unloaded while the Store already holds rows — fails on the code. On a
fresh instance over a store persisted earlier (index `[1]` with its detail
entry; the constructor leaves the cache `null` because the list key exists),
a completed, error-free `insert(2, …)` runs `_pushNewId`, which treats the
`null` cache as empty and overwrites the persisted index with `[2]`: the
detail entry for id 1 survives in the store while the index no longer lists
it. -/
theorem c1_index_detail_diverge_after_insert :
    indexDetailAgree seededStore "records" = true ∧
    seededTable._cache_ids = none ∧
    (seededTable.insert (.vNum 2) [("message", .vStr "Hi")]).2.2 = none ∧
    ((seededTable.insert (.vNum 2) [("message", .vStr "Hi")]).1.storage.getItem
        "records_detail_1").isSome = true ∧
    (seededTable.insert (.vNum 2) [("message", .vStr "Hi")]).1.storage.getItem
        "records_list" = some (.vList [.vNum 2]) ∧
    indexDetailAgree
      (seededTable.insert (.vNum 2) [("message", .vStr "Hi")]).1.storage
      "records" = false := by
  decide

/-- C2. The claim — a missing detail entry referenced by the index is logged
and skipped by `filter`/`all`, which return the successfully loaded rows —
fails on the code: the loop body logs the skip message but does not skip; it
falls through to `_deserializeData` on the absent raw data, and the
`JSON.parse`/property assignment there throws. With index `[1]` and no
detail entry for 1, both `all()` and `filter({})` throw instead of returning
`[]`. -/
theorem c2_missing_detail_throws :
    danglingTable.storage.getItem "records_detail_1" = none ∧
    (danglingTable.all).2 = .error .typeError ∧
    (danglingTable.filter (.mapping [])).2 = .error .typeError := by
  decide

/-- C3. The claim — `delete(id)` never fails, in every cache state including
a freshly constructed instance or one right after `drop()` — fails on the
code: `delete` is the one mutator that never loads the cache, and
`this._cache_ids.filter` on the `null` cache throws a TypeError. It does
fail softly when the cache is loaded (second conjunct), but a fresh instance
over a store that already holds the table (cache left `null` by `create()`)
and an instance right after `drop()` both throw — even for an id that was
never present. -/
theorem c3_delete_throws_on_unloaded_cache :
    (loadedTable.delete (.vNum 3074)).2 = none ∧
    seededTable.existsRow (.vNum 3074) = false ∧
    seededTable._cache_ids = none ∧
    (seededTable.delete (.vNum 3074)).2 = some .typeError ∧
    droppedTable._cache_ids = none ∧
    (droppedTable.delete (.vNum 1)).2 = some .typeError := by
  decide

/-- C4 counterexample. The claim — insert validates a shallow copy, so the
caller's mapping is never mutated and injected defaults do not appear in it —
fails on the code: `insert` passes the caller's object straight to
`_validate`, which assigns declared defaults into it. After a successful
insert of `{firstName: "Ann"}` into a table declaring
`loginCount: int default 0`, the caller's mapping contains
`loginCount: 0`. -/
theorem c4_counterexample :
    usersTable.existsRow (.vNum 7) = false ∧
    hasProp [("firstName", Value.vStr "Ann")] "loginCount" = false ∧
    (usersTable.insert (.vNum 7) [("firstName", .vStr "Ann")]).2.2 = none ∧
    getProp (usersTable.insert (.vNum 7) [("firstName", .vStr "Ann")]).2.1
      "loginCount" = some (.vNum 0) ∧
    (usersTable.insert (.vNum 7) [("firstName", .vStr "Ann")]).2.1 ≠
      [("firstName", .vStr "Ann")] := by
  decide

/-- C4, amended. `insert(id, data)` runs validation directly on the
caller-supplied mapping, mutating it in place: after a non-AlreadyExists
insert the caller's mapping is exactly the defaults-applied mapping; in
particular a declared default for a field the mapping lacked does appear in
the caller's mapping after `insert` returns (only the serialization step
copies). -/
theorem c4_insert_mutates_caller_mapping (t : Table) (id : Value) (data : Obj)
    (hex : t.existsRow id = false) :
    (t.insert id data).2.1 = applyDefaults t._fields data ∧
    (∀ fa ∈ t._fields, ∀ v, fa.default? = some v →
      (t._fields.map FieldSpec.name).Nodup →
      hasProp data fa.name = false →
      getProp (t.insert id data).2.1 fa.name = some v) := by
  have hdata : (t.insert id data).2.1 = (Table._validate t._fields data).2 := by
    unfold Table.insert
    rw [hex]
    cases hE : Table._validate t._fields data with
    | mk errors data' =>
        by_cases hlen : errors.length > 0 <;> simp [hE, hlen]
  constructor
  · rw [hdata, validate_snd]
  · intro fa hfa v hv hnd habs
    rw [hdata, validate_snd]
    exact applyDefaults_injects t._fields fa v hv hnd hfa data habs

/-- C4 witness: the amended theorem at the concrete scenario of the
counterexample. -/
theorem c4_witness :
    usersTable.existsRow (.vNum 7) = false ∧
    getProp (usersTable.insert (.vNum 7) [("firstName", .vStr "Ann")]).2.1
      "loginCount" = some (.vNum 0) := by
  refine ⟨by decide, ?_⟩
  exact (c4_insert_mutates_caller_mapping usersTable (.vNum 7)
      [("firstName", .vStr "Ann")] (by decide)).2
    { name := "loginCount", type? := some "int", default? := some (.vNum 0) }
    (by decide) (.vNum 0) rfl (by decide) (by decide)

theorem defaultFiltering_invalid_op (f op : String) (v : Value) (rest : Obj)
    (row : Obj) (hf : hasProp row f = true)
    (hop : lookupTypes.contains op = false) :
    Table._defaultFiltering [(f, (op, v) :: rest)] row =
      .error (.invalidLookup op) := by
  unfold Table._defaultFiltering collectMatched
  rw [if_neg (by simp [hf])]
  show Except.map _
    (match evalLookupData ((getProp row f).getD .vNull) ((op, v) :: rest) with
      | Except.ok bs => Except.map (fun more => bs ++ more) (collectMatched row [])
      | Except.error e => Except.error e) = _
  unfold evalLookupData
  rw [if_neg (by rw [hop]; simp)]
  rfl

theorem filterStep_invalid_op (t : Table) (f op : String) (v : Value)
    (rest : Obj) (id : Value)
    (hd : isObjVal (t.storage.getItem (t._detailName id)) = true)
    (hf : hasProp (rowOf t id) f = true)
    (hop : lookupTypes.contains op = false) :
    t.filterStep (some (.mapping [(f, (op, v) :: rest)])) id =
      .error (.invalidLookup op) := by
  unfold Table.filterStep
  cases hx : t.storage.getItem (t._detailName id) with
  | none => rw [hx] at hd; simp [isObjVal] at hd
  | some sv =>
      cases sv with
      | vList l => rw [hx] at hd; simp [isObjVal] at hd
      | vObj o =>
          have hrow : rowOf t id = setProp o idField id := by
            unfold rowOf
            rw [hx]
          rw [hrow] at hf
          show (Table._deserializeData id (some (.vObj o))).bind _ = _
          rw [show Table._deserializeData id (some (.vObj o)) =
                .ok (setProp o idField id) from rfl]
          show (Table._defaultFiltering _ (setProp o idField id)).bind _ = _
          rw [defaultFiltering_invalid_op f op v rest _ hf hop]
          rfl

/-- C5 counterexample. The claim — `filter` with a mapping containing an
unrecognized operator always fails with InvalidLookup — fails on the code:
the operator check sits inside the per-row loop, behind the
row-has-this-field guard, so on an empty table (or whenever no scanned row
has the filtered field) the unrecognized operator is never examined and
`filter` returns normally. -/
theorem c5_counterexample :
    lookupTypes.contains "~=" = false ∧
    freshTable.filter (.mapping [("message", [("~=", .vNum 1)])]) =
      (freshTable, .ok []) := by
  decide

/-- C5, amended. When some row is scanned whose data has the filtered field,
`filter` with an unrecognized operator does raise InvalidLookup — at the
first such row (here: the head of the index) — and the raise has no side
effects: the instance (cache and storage) comes back exactly as it went in,
since the scan only reads. When no scanned row has the field (e.g. the empty
table of the counterexample), the invalid operator goes undetected. -/
theorem c5_invalid_lookup_raised_during_scan (t : Table) (f op : String)
    (v : Value) (rest : Obj) (id : Value) (ids : List Value)
    (hc : t._cache_ids = some (id :: ids))
    (hd : isObjVal (t.storage.getItem (t._detailName id)) = true)
    (hf : hasProp (rowOf t id) f = true)
    (hop : lookupTypes.contains op = false) :
    t.filter (.mapping [(f, (op, v) :: rest)]) =
      (t, .error (.invalidLookup op)) := by
  unfold Table.filter Table._filter Table._getIds
  rw [hc]
  show (t, t.filterLoop _ (id :: ids)) = _
  unfold Table.filterLoop
  rw [filterStep_invalid_op t f op v rest id hd hf hop]
  rfl

/-- C5 witness: the amended theorem on a one-row table whose row has the
filtered field. -/
theorem c5_witness :
    loadedTable._cache_ids = some [Value.vNum 1] ∧
    hasProp (rowOf loadedTable (.vNum 1)) "message" = true ∧
    lookupTypes.contains "~=" = false ∧
    loadedTable.filter (.mapping [("message", [("~=", .vNum 1)])]) =
      (loadedTable, .error (.invalidLookup "~=")) :=
  ⟨by decide, by decide, by decide,
   c5_invalid_lookup_raised_during_scan loadedTable "message" "~=" (.vNum 1)
     [] (.vNum 1) [] (by decide) (by decide) (by decide) (by decide)⟩

/-- C6. Round-trip: for an id with no detail entry in the Store and a data
mapping that validates, `insert(id, m)` succeeds, and `get(id)` then returns
`m` with the declared defaults applied for fields missing from `m` and with
the id attached under the `id` key; the persisted payload itself never
contains the id (any `id` key of the mapping is dropped on serialization and
the id is reattached from the call on read). -/
theorem c6_insert_get_round_trip (t : Table) (id : Value) (m : Obj)
    (h1 : t.storage.getItem (t._detailName id) = none)
    (h2 : (Table._validate t._fields m).1 = []) :
    (t.insert id m).2.2 = none ∧
    (t.insert id m).1.get id =
      .ok (setProp (assocDrop (applyDefaults t._fields m) idField) idField id) ∧
    (t.insert id m).1.storage.getItem ((t.insert id m).1._detailName id) =
      some (.vObj (assocDrop (applyDefaults t._fields m) idField)) ∧
    hasProp (assocDrop (applyDefaults t._fields m) idField) idField = false := by
  refine ⟨?_, get_after_insert t id m h1 h2, stored_after_insert t id m h1 h2,
    hasProp_assocDrop_self _ _⟩
  rw [insert_success t id m h1 h2]

/-- C6 witness: the round-trip on a fresh table with one string field. -/
theorem c6_witness :
    freshTable.storage.getItem (freshTable._detailName (.vNum 1)) = none ∧
    (Table._validate freshTable._fields [("message", Value.vStr "Hello")]).1 = [] ∧
    (freshTable.insert (.vNum 1) [("message", .vStr "Hello")]).1.get (.vNum 1) =
      .ok (setProp (assocDrop (applyDefaults freshTable._fields
        [("message", Value.vStr "Hello")]) idField) idField (.vNum 1)) :=
  ⟨by decide, by decide,
   (c6_insert_get_round_trip freshTable (.vNum 1)
     [("message", .vStr "Hello")] (by decide) (by decide)).2.1⟩

/-- C7. Declarative filtering with recognized operators: starting from an
unloaded cache, `filter(m)` loads the stored index and returns, in the
index's stored order with no sort, exactly the rows for which every
operator-value clause of every filter field present on the row evaluates
true (logical AND across fields and across operators within a field,
`matchesRow`); a filter field absent from a row is skipped rather than
failing the row. -/
theorem c7_declarative_filter_semantics (t : Table) (ids : List Value)
    (m : List (String × Obj))
    (hc : t._cache_ids = none)
    (hs : t.storage.getItem t._tableListName = some (.vList ids))
    (hd : ∀ id ∈ ids, isObjVal (t.storage.getItem (t._detailName id)) = true)
    (hop : ∀ fc ∈ m, ∀ ov ∈ fc.2, ov.1 ∈ lookupTypes) :
    t.filter (.mapping m) =
      ({ t with _cache_ids := some ids },
       .ok ((ids.map (rowOf t)).filter (matchesRow m))) := by
  unfold Table.filter Table._filter Table._getIds
  rw [hc, hs]
  show ({ t with _cache_ids := some ids },
    ({ t with _cache_ids := some ids } : Table).filterLoop _ ids) = _
  rw [filterLoop_mapping { t with _cache_ids := some ids } m ids hd hop]
  rw [show rowOf { t with _cache_ids := some ids } = rowOf t from rfl]

/-- C7 witness: a one-row stored table filtered on its string field. -/
theorem c7_witness :
    seededTable._cache_ids = none ∧
    seededTable.storage.getItem seededTable._tableListName =
      some (.vList [Value.vNum 1]) ∧
    seededTable.filter (.mapping [("message", [("=", .vStr "Hello")])]) =
      ({ seededTable with _cache_ids := some [Value.vNum 1] },
       .ok (([Value.vNum 1].map (rowOf seededTable)).filter
         (matchesRow [("message", [("=", .vStr "Hello")])]))) :=
  ⟨by decide, by decide,
   c7_declarative_filter_semantics seededTable [Value.vNum 1]
     [("message", [("=", .vStr "Hello")])]
     (by decide) (by decide) (by decide) (by decide)⟩

/-- C8. Validation type semantics for numbers: the `int` validator accepts a
value exactly when it is a number unchanged by `Math.round`; the `timestamp`
type resolves to the very same validator as `int`; and any non-numeric value
is rejected by it. -/
theorem c8_int_timestamp_validator_semantics :
    (∀ v, isInteger v = true ↔ ∃ q, v = Value.vNum q ∧ jsRound q = q) ∧
    lookupFieldType "timestamp" = lookupFieldType "int" ∧
    (∀ v, isFloat v = false → isInteger v = false) := by
  refine ⟨fun v => ?_, rfl, fun v h => ?_⟩
  · cases v with
    | vNum q =>
        constructor
        · intro h
          exact ⟨q, rfl, by simpa [isInteger, beq_iff_eq] using h⟩
        · rintro ⟨q', hq, hr⟩
          rw [Value.vNum.injEq] at hq
          subst hq
          simp [isInteger, beq_iff_eq, hr]
    | vStr s => simp [isInteger]
    | vBool b => simp [isInteger]
    | vNull => simp [isInteger]
  · cases v <;> simp_all [isInteger, isFloat]

/-- C8 witness: the characterization applied at an integral number and at a
numeric-looking string. -/
theorem c8_witness :
    isInteger (.vNum 3) = true ∧ isInteger (.vStr "5") = false :=
  ⟨(c8_int_timestamp_validator_semantics.1 (.vNum 3)).mpr ⟨3, rfl, by decide⟩,
   c8_int_timestamp_validator_semantics.2.2 (.vStr "5") (by decide)⟩

/-- C9. Validation only examines declared fields: adding a key named by no
FieldSpec (and distinct from the `id` key) to a data mapping changes no
validation outcome; the extra field is persisted in the detail payload and
comes back from `get`. -/
theorem c9_undeclared_field_passthrough (t : Table) (id : Value) (k : String)
    (v : Value) (data : Obj)
    (hk : ∀ fa ∈ t._fields, fa.name ≠ k)
    (hkid : k ≠ idField)
    (h1 : t.storage.getItem (t._detailName id) = none)
    (h2 : (Table._validate t._fields data).1 = []) :
    (Table._validate t._fields (setProp data k v)).1 = [] ∧
    (t.insert id (setProp data k v)).2.2 = none ∧
    (t.insert id (setProp data k v)).1.storage.getItem
        ((t.insert id (setProp data k v)).1._detailName id) =
      some (.vObj (assocDrop (applyDefaults t._fields (setProp data k v)) idField)) ∧
    getProp (assocDrop (applyDefaults t._fields (setProp data k v)) idField) k =
      some v ∧
    ∃ row, (t.insert id (setProp data k v)).1.get id = .ok row ∧
      getProp row k = some v := by
  have herr : (Table._validate t._fields (setProp data k v)).1 = [] := by
    have hcongr := validate_congr t._fields k hk (setProp data k v) data
      (fun n hn => hasProp_setProp_ne data k n v hn)
      (fun n hn => getProp_setProp_ne data k n v hn)
    rw [hcongr, h2]
  have hpersist : getProp (applyDefaults t._fields (setProp data k v)) k = some v := by
    have hpres := applyDefaults_preserves t._fields (setProp data k v) k
      (hasProp_setProp_self data k v)
    rw [hpres.1, getProp_setProp_self]
  have hdrop : getProp (assocDrop (applyDefaults t._fields (setProp data k v)) idField) k =
      some v := by
    rw [getProp_assocDrop_ne _ _ _ hkid, hpersist]
  refine ⟨herr, ?_, stored_after_insert t id _ h1 herr, hdrop, ?_⟩
  · rw [insert_success t id _ h1 herr]
  · refine ⟨_, get_after_insert t id _ h1 herr, ?_⟩
    rw [getProp_setProp_ne _ _ _ _ hkid, hdrop]

/-- C9 witness: an undeclared "extra" key on the one-field schema. -/
theorem c9_witness :
    (Table._validate freshTable._fields
      (setProp [("message", Value.vStr "Hello")] "extra" (.vStr "X"))).1 = [] ∧
    (freshTable.insert (.vNum 1)
      (setProp [("message", Value.vStr "Hello")] "extra" (.vStr "X"))).2.2 = none :=
  have h := c9_undeclared_field_passthrough freshTable (.vNum 1) "extra"
    (.vStr "X") [("message", .vStr "Hello")] (by decide) (by decide)
    (by decide) (by decide)
  ⟨h.1, h.2.1⟩

/-- C10. An injected default is never type-checked: when a field with a
declared default is missing from the data, validation injects the default
and records no error for that field even when the default fails the field's
type validator; on a table declaring (only) that field, insert succeeds and
`get` returns the ill-typed default. -/
theorem c10_default_never_type_checked (fa : FieldSpec) (v : Value)
    (vf : Value → Bool) (data : Obj)
    (hdef : fa.default? = some v)
    (habs : hasProp data fa.name = false)
    (_hvf : lookupFieldType (fa.type?.getD "str") = some (some vf))
    (_hrej : vf v = false) :
    validateFieldErrors data fa = [] ∧
    Table._validate [fa] data = ([], setProp data fa.name v) ∧
    (∀ (t : Table) (id : Value), t._fields = [fa] → fa.name ≠ idField →
      t.storage.getItem (t._detailName id) = none →
      (t.insert id data).2.2 = none ∧
      ∃ row, (t.insert id data).1.get id = .ok row ∧
        getProp row fa.name = some v) := by
  have herrs : validateFieldErrors data fa = [] := by
    unfold validateFieldErrors
    rw [if_pos (by simp [habs]), hdef]
  have hdata : validateFieldData data fa = setProp data fa.name v := by
    unfold validateFieldData
    rw [if_pos (by simp [habs]), hdef]
  have hvalidate : Table._validate [fa] data = ([], setProp data fa.name v) := by
    unfold Table._validate
    rw [List.foldl_cons, List.foldl_nil]
    show ([] ++ validateFieldErrors data fa, validateFieldData data fa) = _
    rw [herrs, hdata]
    rfl
  refine ⟨herrs, hvalidate, ?_⟩
  intro t id hfields hnid h1
  have h2 : (Table._validate t._fields data).1 = [] := by
    rw [hfields, hvalidate]
  constructor
  · rw [insert_success t id data h1 h2]
  · refine ⟨_, get_after_insert t id data h1 h2, ?_⟩
    rw [getProp_setProp_ne _ _ _ _ hnid, getProp_assocDrop_ne _ _ _ hnid]
    rw [hfields]
    exact applyDefaults_injects [fa] fa v hdef (by simp) (by simp) data habs

/-- C10 witness: an `int` field whose default is the string "oops"; insert
of an empty mapping succeeds and persists it. -/
theorem c10_witness :
    isInteger (.vStr "oops") = false ∧
    validateFieldErrors [] illTypedField = [] ∧
    (illTypedTable.insert (.vNum 1) []).2.2 = none :=
  have h := c10_default_never_type_checked illTypedField (.vStr "oops")
    isInteger [] rfl (by decide) rfl (by decide)
  ⟨by decide, h.1,
   (h.2.2 illTypedTable (.vNum 1) (by decide) (by decide) (by decide)).1⟩

end ClaimTheorems
